import Mathlib

/-!
Verification of the script-host and event-dispatch subsystem of
`bevy_mod_scripting`.

The embedding below follows the repository sources:
  - `src/bevy_mod_scripting/src/lib.rs` (plugin, `ScriptErrorEvent`,
    `gen_documentation`, `add_api_provider`, `add_script_handler_stage`);
  - `src/examples/lua/console_integration.rs` and
    `src/bevy_mod_scripting/examples/console_integration_rhai.rs`
    (`run_script_cmd`, `delete_script_cmd`, `attach_api`).
Parts of the pipeline whose implementation is not in the sources
(the priority event queue, `handle_events`, `sync_contexts`,
`attach_all`, `gen_all`) are modelled from the specification; each such
definition says so in its doc comment.
-/

/-- One script attached to one entity: `Script { name, id, handle }`
from the data model (name is the source path, `id` a `ScriptId`,
`source_handle` an opaque asset handle). -/
structure Script where
  name : String
  id : Nat
  source_handle : Nat
deriving DecidableEq, Repr

/-- Component holding all scripts attached to one entity:
`ScriptCollection { scripts: Vec<Script> }`. -/
structure ScriptCollection where
  scripts : List Script
deriving DecidableEq, Repr

/-- `Script::new(path, handle)` as used by `run_script_cmd`; the
`ScriptId` is assigned at creation. -/
def Script.new (path : String) (sid : Nat) (handle : Nat) : Script :=
  ⟨path, sid, handle⟩

/-- Embedding of the mutation performed by `run_script_cmd`
(console_integration.rs lines 139-143 and console_integration_rhai.rs
lines 126-128): `scripts.scripts.push(Script::new(path, handle))`.
A `Vec::push` is total: it never fails. -/
def attach_script (c : ScriptCollection) (s : Script) : ScriptCollection :=
  { scripts := c.scripts ++ [s] }

/-- Embedding of the mutation performed by `delete_script_cmd`
(console_integration.rs lines 172-183): record the old length, run
`s.scripts.retain(|s| s.name() != name)`, and reply ok exactly when the
length decreased (something was removed). -/
def delete_script (c : ScriptCollection) (nm : String) : ScriptCollection × Bool :=
  let old_len := c.scripts.length
  let retained := c.scripts.filter (fun s => s.name != nm)
  ({ scripts := retained }, decide (retained.length < old_len))

/-- A list keeps its length under `filter` exactly when every element
passes, and drops below it exactly when some element fails. -/
theorem filter_length_lt_iff (p : Script → Bool) (l : List Script) :
    (l.filter p).length < l.length ↔ ∃ s ∈ l, p s = false := by
  induction l with
  | nil => simp
  | cons a l ih =>
    by_cases ha : p a = true
    · simp only [List.filter_cons_of_pos ha, List.length_cons, Nat.add_lt_add_iff_right, ih,
        List.mem_cons]
      constructor
      · rintro ⟨s, hs, hps⟩; exact ⟨s, Or.inr hs, hps⟩
      · rintro ⟨s, hs | hs, hps⟩
        · subst hs; rw [ha] at hps; cases hps
        · exact ⟨s, hs, hps⟩
    · rw [Bool.not_eq_true] at ha
      refine ⟨fun _ => ⟨a, List.mem_cons_self a l, ha⟩, fun _ => ?_⟩
      rw [List.filter_cons_of_neg (by simp [ha])]
      exact Nat.lt_succ_of_le l.filter_sublist.length_le

/-- C4: `delete_script` (detach by name) keeps exactly the entries whose
name differs, in their original relative order; it returns `true` iff at
least one entry matched; when nothing matches, the collection is returned
unchanged with `false`; and on the concrete collection `["a","b"]`,
detaching `"a"` leaves `["b"]` and detaching `"a"` again returns `false`. -/
theorem delete_script_spec (c : ScriptCollection) (nm : String) :
    (∀ s : Script, s ∈ (delete_script c nm).1.scripts ↔ s ∈ c.scripts ∧ s.name ≠ nm)
    ∧ (delete_script c nm).1.scripts.Sublist c.scripts
    ∧ ((delete_script c nm).2 = true ↔ ∃ s ∈ c.scripts, s.name = nm)
    ∧ ((delete_script c nm).2 = false → delete_script c nm = (c, false))
    ∧ (delete_script ⟨[Script.new "a" 0 0, Script.new "b" 1 1]⟩ "a"
        = (⟨[Script.new "b" 1 1]⟩, true))
    ∧ (delete_script ⟨[Script.new "b" 1 1]⟩ "a" = (⟨[Script.new "b" 1 1]⟩, false)) := by
  refine ⟨?_, ?_, ?_, ?_, by decide, by decide⟩
  · intro s
    simp [delete_script, List.mem_filter, bne_iff_ne]
  · exact List.filter_sublist _
  · simp only [delete_script, decide_eq_true_eq]
    rw [filter_length_lt_iff]
    constructor
    · rintro ⟨s, hs, hps⟩
      refine ⟨s, hs, ?_⟩
      simpa [bne_iff_ne] using hps
    · rintro ⟨s, hs, hps⟩
      exact ⟨s, hs, by simp [hps]⟩
  · intro h
    simp only [delete_script, decide_eq_false_iff_not, Nat.not_lt] at h
    have hfull : (c.scripts.filter (fun s => s.name != nm)).length = c.scripts.length :=
      Nat.le_antisymm c.scripts.filter_sublist.length_le h
    have : c.scripts.filter (fun s => s.name != nm) = c.scripts :=
      c.scripts.filter_sublist.eq_of_length hfull
    simp [delete_script, this, Nat.lt_irrefl]

/-- C4 witness: the general theorem applied at a concrete collection. -/
theorem delete_script_spec_witness :
    (delete_script ⟨[Script.new "a" 0 0, Script.new "b" 1 1]⟩ "a").2 = true :=
  ((delete_script_spec ⟨[Script.new "a" 0 0, Script.new "b" 1 1]⟩ "a").2.2.1).2
    ⟨Script.new "a" 0 0, by decide, by decide⟩

/-- C5: `attach_script` (the `Vec::push` in `run_script_cmd`) appends
exactly one new `Script` at the end of the collection and leaves every
previously present entry unchanged in its previous position; being a
total function it never fails. -/
theorem attach_script_spec (c : ScriptCollection) (s : Script) :
    (attach_script c s).scripts.length = c.scripts.length + 1
    ∧ (attach_script c s).scripts.take c.scripts.length = c.scripts
    ∧ (attach_script c s).scripts.drop c.scripts.length = [s] := by
  refine ⟨by simp [attach_script], ?_, ?_⟩
  · exact List.take_left c.scripts [s]
  · exact List.drop_left c.scripts [s]

/-- Recipient targeting of one event, from the data model: every
attached script, or an explicit set of `ScriptId`s (the sources use
`Recipients::All`; the explicit set comes from the specified event
shape `All | set<ScriptId>`). -/
inductive Recipients where
  | All : Recipients
  | Ids (ids : List Nat) : Recipients
deriving DecidableEq, Repr

/-- A script event as emitted by `trigger_on_update_lua` and
`trigger_on_update_rhai`: a hook name, a language-specific argument
payload, and a recipient set; the priority travels next to the event in
the queue. -/
structure ScriptEvent (A : Type) where
  hook_name : String
  args : A
  recipients : Recipients
deriving DecidableEq, Repr

/-- One hook invocation the host performs: which entity's collection,
which script, which hook, which arguments. -/
structure Invocation (A : Type) where
  entity : Nat
  script : Script
  hook_name : String
  args : A
deriving DecidableEq, Repr

/-- Modelled from the spec: the priority queue implementation
(`bevy_event_priority`) is not among the sources; a dispatch pass keeps
the enqueue-ordered group of each priority and concatenates the groups
in ascending priority order, starting at `lo` for `n` consecutive
priorities.  This realises "sort by priority ascending, stable on
enqueue order within equal priority". -/
def bucketed (q : List (α × Nat)) : Nat → Nat → List (α × Nat)
  | _, 0 => []
  | lo, n + 1 => q.filter (fun ep => ep.2 == lo) ++ bucketed q (lo + 1) n

/-- Modelled from the spec: one dispatch pass of a handler configured
with the inclusive priority range `[pmin, pmax]` receives exactly the
enqueued events whose priority lies in the range, sorted by priority
ascending, stable on enqueue order. -/
def dispatch_events (pmin pmax : Nat) (q : List (α × Nat)) : List (α × Nat) :=
  bucketed q pmin (pmax + 1 - pmin)

theorem mem_bucketed (q : List (α × Nat)) (lo n : Nat) (ep : α × Nat) :
    ep ∈ bucketed q lo n ↔ ep ∈ q ∧ lo ≤ ep.2 ∧ ep.2 < lo + n := by
  induction n generalizing lo with
  | zero =>
    simp only [bucketed, List.not_mem_nil, false_iff]
    rintro ⟨-, h1, h2⟩; omega
  | succ n ih =>
    simp only [bucketed, List.mem_append, List.mem_filter, beq_iff_eq, ih]
    constructor
    · rintro (⟨h, he⟩ | ⟨h, h1, h2⟩) <;> exact ⟨h, by omega, by omega⟩
    · rintro ⟨h, h1, h2⟩
      by_cases hlo : ep.2 = lo
      · exact Or.inl ⟨h, hlo⟩
      · exact Or.inr ⟨h, by omega, by omega⟩

/-- Every list whose elements all carry the same priority is pairwise
non-decreasing in priority. -/
theorem pairwise_of_const_snd (l : List (α × Nat)) (v : Nat) (h : ∀ a ∈ l, a.2 = v) :
    l.Pairwise (fun a b : α × Nat => a.2 ≤ b.2) := by
  induction l with
  | nil => exact List.Pairwise.nil
  | cons b l ih =>
    refine List.Pairwise.cons ?_ (ih (fun a ha => h a (List.mem_cons_of_mem b ha)))
    intro c hc
    rw [h b (List.mem_cons_self b l), h c (List.mem_cons_of_mem b hc)]

theorem bucketed_sorted (q : List (α × Nat)) (lo n : Nat) :
    (bucketed q lo n).Pairwise (fun a b => a.2 ≤ b.2) := by
  induction n generalizing lo with
  | zero => simp [bucketed]
  | succ n ih =>
    rw [bucketed, List.pairwise_append]
    refine ⟨?_, ih (lo + 1), ?_⟩
    · exact pairwise_of_const_snd _ lo
        (fun a ha => by simpa using (List.mem_filter.mp ha).2)
    · intro a ha b hb
      have h1 : a.2 = lo := by simpa using (List.mem_filter.mp ha).2
      have h2 := (mem_bucketed q (lo + 1) n b).mp hb
      omega

theorem filter_bucketed (q : List (α × Nat)) (lo n p : Nat) :
    (bucketed q lo n).filter (fun ep => ep.2 == p)
      = if lo ≤ p ∧ p < lo + n then q.filter (fun ep => ep.2 == p) else [] := by
  induction n generalizing lo with
  | zero =>
    rw [bucketed, if_neg (by omega)]
    rfl
  | succ n ih =>
    have hgf : (q.filter (fun ep : α × Nat => ep.2 == lo)).filter (fun ep => ep.2 == p)
        = if p = lo then q.filter (fun ep : α × Nat => ep.2 == p) else [] := by
      by_cases hp : p = lo
      · subst hp
        rw [if_pos rfl, List.filter_filter]
        apply List.filter_congr
        intro a _
        simp [Bool.and_self]
      · rw [if_neg hp]
        apply List.filter_eq_nil_iff.mpr
        intro a ha
        have h2 : a.2 = lo := by simpa using (List.mem_filter.mp ha).2
        simp only [h2, beq_iff_eq]
        exact fun h => hp h.symm
    rw [bucketed, List.filter_append, ih, hgf]
    by_cases hp : p = lo
    · subst hp
      have h1 : ¬(p + 1 ≤ p ∧ p < p + 1 + n) := by omega
      have h2 : p ≤ p ∧ p < p + (n + 1) := by omega
      rw [if_pos rfl, if_neg h1, if_pos h2, List.append_nil]
    · rw [if_neg hp, List.nil_append]
      by_cases hc : lo + 1 ≤ p ∧ p < lo + 1 + n
      · have h2 : lo ≤ p ∧ p < lo + (n + 1) := by omega
        rw [if_pos hc, if_pos h2]
      · have h2 : ¬(lo ≤ p ∧ p < lo + (n + 1)) := by omega
        rw [if_neg hc, if_neg h2]

/-- Modelled from the spec: resolve the recipient set of one event
against one collection — all scripts in it, or only those whose
`ScriptId` is listed. -/
def resolve_recipients (r : Recipients) (scripts : List Script) : List Script :=
  match r with
  | Recipients.All => scripts
  | Recipients.Ids ids => scripts.filter (fun s => ids.contains s.id)

/-- Hook invocations one event produces against one entity's
collection, in within-collection script order. -/
def event_invocations (A : Type) (e : ScriptEvent A) (ec : Nat × ScriptCollection) :
    List (Invocation A) :=
  (resolve_recipients e.recipients ec.2.scripts).map
    (fun s => ⟨ec.1, s, e.hook_name, e.args⟩)

/-- Modelled from the spec: `handle_events` walks the caller-supplied,
already priority-ordered event sequence in order; for each event it
walks the entities in iteration order, and within each entity's
collection the scripts in collection order, invoking the hook named by
the event with the event's arguments. -/
def handle_events (A : Type) (colls : List (Nat × ScriptCollection))
    (events : List (ScriptEvent A)) : List (Invocation A) :=
  events.foldl (fun acc e =>
    acc ++ colls.foldl (fun acc2 ec => acc2 ++ event_invocations A e ec) []) []

/-- Folding append of per-element blocks from an arbitrary accumulator
produces the accumulator followed by the concatenation of the blocks. -/
theorem foldl_append_blocks (f : β → List γ) (l : List β) (acc : List γ) :
    l.foldl (fun a b => a ++ f b) acc = acc ++ l.flatMap f := by
  induction l generalizing acc with
  | nil => simp
  | cons b l ih => simp [List.foldl_cons, ih, List.append_assoc]

/-- C1: one dispatch pass of a handler with inclusive range
`[pmin, pmax]` delivers exactly the enqueued events whose priority lies
in the range — for every priority, the delivered group of that priority
is the enqueued group when the priority is in range and empty otherwise
(so ties are broken by enqueue order), the delivered sequence is
non-decreasing in priority, and an event is delivered iff it was
enqueued with an in-range priority; the full delivery order of the pass
is the events in that sorted order, then entity iteration order, then
within-collection script order (the nested concatenation below). -/
theorem script_event_handler_order (A : Type) (pmin pmax : Nat)
    (q : List (ScriptEvent A × Nat)) (colls : List (Nat × ScriptCollection)) :
    ((dispatch_events pmin pmax q).Pairwise (fun a b => a.2 ≤ b.2))
    ∧ (∀ p : Nat, (dispatch_events pmin pmax q).filter (fun ep => ep.2 == p)
        = if pmin ≤ p ∧ p ≤ pmax then q.filter (fun ep => ep.2 == p) else [])
    ∧ (∀ ep : ScriptEvent A × Nat,
        ep ∈ dispatch_events pmin pmax q ↔ ep ∈ q ∧ pmin ≤ ep.2 ∧ ep.2 ≤ pmax)
    ∧ handle_events A colls ((dispatch_events pmin pmax q).map Prod.fst)
        = ((dispatch_events pmin pmax q).map Prod.fst).flatMap
            (fun e => colls.flatMap (event_invocations A e)) := by
  refine ⟨bucketed_sorted q pmin (pmax + 1 - pmin), ?_, ?_, ?_⟩
  · intro p
    rw [dispatch_events, filter_bucketed]
    by_cases hc : pmin ≤ p ∧ p ≤ pmax
    · rw [if_pos (by omega), if_pos hc]
    · rw [if_neg (by omega), if_neg hc]
  · intro ep
    rw [dispatch_events, mem_bucketed]
    constructor
    · rintro ⟨h, h1, h2⟩; exact ⟨h, h1, by omega⟩
    · rintro ⟨h, h1, h2⟩; exact ⟨h, h1, by omega⟩
  · rw [handle_events, foldl_append_blocks, List.nil_append]
    apply List.flatMap_congr
    intro e _
    rw [foldl_append_blocks, List.nil_append]

/-- Structured script error, from the error model: always attributable
to a specific script and carrying a human-readable message (the
`error.rs` module itself is not among the sources). -/
structure ScriptError where
  script : String
  msg : String
deriving DecidableEq, Repr

/-- Embedding of `ScriptErrorEvent { err: ScriptError }`
(lib.rs lines 24-27): the sole user-visible channel for script
failures. -/
structure ScriptErrorEvent where
  err : ScriptError
deriving DecidableEq, Repr

/-- Modelled from the spec: how the host treats the outcome of one hook
invocation — a success leaves the error stream untouched; an error is
wrapped into exactly one `ScriptErrorEvent` carrying the script
identity and the message, and the host moves on to the next
invocation. -/
def run_step (A : Type) (hook : Invocation A → Except String Unit)
    (acc : List (Invocation A) × List ScriptErrorEvent) (inv : Invocation A) :
    List (Invocation A) × List ScriptErrorEvent :=
  match hook inv with
  | Except.ok _ => (acc.1 ++ [inv], acc.2)
  | Except.error m => (acc.1 ++ [inv], acc.2 ++ [⟨⟨inv.script.name, m⟩⟩])

/-- Modelled from the spec: the per-frame dispatch path runs every
invocation of the pass in order as a blocking call; the model is a
total function — no branch panics or aborts. Returns the invocations
that actually executed and the emitted error events. -/
def run_invocations (A : Type) (hook : Invocation A → Except String Unit)
    (invs : List (Invocation A)) : List (Invocation A) × List ScriptErrorEvent :=
  invs.foldl (run_step A hook) ([], [])

/-- The error event, if any, that a single invocation contributes. -/
def err_of (A : Type) (hook : Invocation A → Except String Unit)
    (inv : Invocation A) : Option ScriptErrorEvent :=
  match hook inv with
  | Except.ok _ => none
  | Except.error m => some ⟨⟨inv.script.name, m⟩⟩

theorem run_invocations_go (A : Type) (hook : Invocation A → Except String Unit)
    (invs : List (Invocation A)) (acc : List (Invocation A) × List ScriptErrorEvent) :
    invs.foldl (run_step A hook) acc
      = (acc.1 ++ invs, acc.2 ++ invs.filterMap (err_of A hook)) := by
  induction invs generalizing acc with
  | nil => simp
  | cons inv invs ih =>
    rw [List.foldl_cons, ih]
    cases h : hook inv with
    | ok u => simp [run_step, err_of, h]
    | error m => simp [run_step, err_of, h]

/-- C2: every invocation of a dispatch pass executes — a failure in one
script's hook never prevents the next hook from running — and the error
stream holds exactly one `ScriptErrorEvent` per failing invocation, in
order, each carrying that script's identity and the underlying message;
`run_invocations` is a total function, so no failure panics or aborts
the dispatch path. -/
theorem run_invocations_isolation (A : Type)
    (hook : Invocation A → Except String Unit) (invs : List (Invocation A)) :
    (run_invocations A hook invs).1 = invs
    ∧ (run_invocations A hook invs).2 = invs.filterMap (err_of A hook)
    ∧ (∀ ev : ScriptErrorEvent, ev ∈ (run_invocations A hook invs).2 →
        ∃ inv ∈ invs, hook inv = Except.error ev.err.msg ∧ ev.err.script = inv.script.name) := by
  have h := run_invocations_go A hook invs ([], [])
  refine ⟨by rw [run_invocations, h]; simp, by rw [run_invocations, h]; simp, ?_⟩
  intro ev hev
  rw [run_invocations, h] at hev
  simp only [List.nil_append, List.mem_filterMap] at hev
  obtain ⟨inv, hinv, hof⟩ := hev
  refine ⟨inv, hinv, ?_⟩
  rw [err_of] at hof
  cases hh : hook inv with
  | ok u => rw [hh] at hof; cases hof
  | error m =>
    rw [hh] at hof
    cases hof
    exact ⟨rfl, rfl⟩

/-- C2 witness: on two concrete scripts where the first hook fails and
the second succeeds, both invocations run and exactly one error event
is produced, carrying the failing script's name and message. -/
theorem run_invocations_isolation_witness :
    (run_invocations Unit
        (fun inv => if inv.script.name = "a" then Except.error "boom" else Except.ok ())
        [⟨0, Script.new "a" 0 0, "on_update", ()⟩, ⟨0, Script.new "b" 1 1, "on_update", ()⟩]).1
      = [⟨0, Script.new "a" 0 0, "on_update", ()⟩, ⟨0, Script.new "b" 1 1, "on_update", ()⟩]
    ∧ (run_invocations Unit
        (fun inv => if inv.script.name = "a" then Except.error "boom" else Except.ok ())
        [⟨0, Script.new "a" 0 0, "on_update", ()⟩, ⟨0, Script.new "b" 1 1, "on_update", ()⟩]).2
      = [⟨⟨"a", "boom"⟩⟩] := by
  have h := run_invocations_isolation Unit
    (fun inv => if inv.script.name = "a" then Except.error "boom" else Except.ok ())
    [⟨0, Script.new "a" 0 0, "on_update", ()⟩, ⟨0, Script.new "b" 1 1, "on_update", ()⟩]
  exact ⟨h.1, by rw [h.2.1]; rfl⟩

/-- Inclusive priority-range test of a dispatch phase. -/
def inRange (pmin pmax p : Nat) : Bool :=
  decide (pmin ≤ p) && decide (p ≤ pmax)

/-- Modelled from the spec: one dispatch pass partitions the queue into
the events whose priority falls in the pass's range (claimed and
delivered) and the events that do not (left in the queue for a later
phase — they are not dropped). -/
def pass_split (pmin pmax : Nat) (q : List (α × Nat)) :
    List (α × Nat) × List (α × Nat) :=
  (q.filter (fun ep => inRange pmin pmax ep.2),
   q.filter (fun ep => !(inRange pmin pmax ep.2)))

/-- Modelled from the spec: the configured dispatch phases run in
order; each claims its in-range events and later phases see only what
earlier phases left. Returns the delivered list of each phase and the
events no phase claimed. -/
def run_phases (phases : List (Nat × Nat)) (q : List (α × Nat)) :
    List (List (α × Nat)) × List (α × Nat) :=
  match phases with
  | [] => ([], q)
  | r :: rest =>
    let s := pass_split r.1 r.2 q
    let t := run_phases rest s.2
    (s.1 :: t.1, t.2)

/-- Modelled from the spec: events whose priority lies below every
configured range are a configuration error and are reported, not
silently dropped. -/
def config_error_report (phases : List (Nat × Nat)) (q : List (α × Nat)) :
    List (α × Nat) :=
  q.filter (fun ep => phases.all (fun r => decide (ep.2 < r.1)))

/-- An event below every configured range is claimed by no phase and
survives every pass. -/
theorem below_all_not_delivered (phases : List (Nat × Nat)) (q : List (α × Nat))
    (ep : α × Nat) (h1 : ep ∈ q) (hb : ∀ r ∈ phases, ep.2 < r.1) :
    (∀ d ∈ (run_phases phases q).1, ep ∉ d) ∧ ep ∈ (run_phases phases q).2 := by
  induction phases generalizing q with
  | nil => exact ⟨by simp [run_phases], by simpa [run_phases] using h1⟩
  | cons r rest ih =>
    have hr : ep.2 < r.1 := hb r (List.mem_cons_self r rest)
    have hnr : inRange r.1 r.2 ep.2 = false := by
      simp only [inRange, Bool.and_eq_false_iff, decide_eq_false_iff_not, Nat.not_le]
      exact Or.inl hr
    have hleft : ep ∈ (pass_split r.1 r.2 q).2 :=
      List.mem_filter.mpr ⟨h1, by simp [hnr]⟩
    obtain ⟨ihd, ihq⟩ := ih (pass_split r.1 r.2 q).2 hleft
      (fun r2 hr2 => hb r2 (List.mem_cons_of_mem r hr2))
    refine ⟨?_, by simpa [run_phases] using ihq⟩
    intro d hd
    rw [run_phases] at hd
    simp only [List.mem_cons] at hd
    rcases hd with hd | hd
    · subst hd
      intro hmem
      have := (List.mem_filter.mp hmem).2
      rw [hnr] at this
      cases this
    · exact ihd d hd

/-- C3: an event enqueued with a priority above the maximum of the
phase handling it is not delivered by that phase and stays in the
leftover queue; if the next phase's range claims that priority, the
event is delivered in that phase's pass.  An event whose priority lies
below every configured range appears in the configuration-error report
and is delivered by no phase (it survives, unclaimed, to the final
leftover queue). -/
theorem priority_range_fate (r1 r2 : Nat × Nat) (rest phases : List (Nat × Nat))
    (q : List (α × Nat)) (ep : α × Nat) :
    (ep ∈ q → r1.2 < ep.2 →
      ep ∉ (pass_split r1.1 r1.2 q).1
      ∧ ep ∈ (pass_split r1.1 r1.2 q).2
      ∧ (inRange r2.1 r2.2 ep.2 = true →
          ep ∈ ((run_phases (r1 :: r2 :: rest) q).1.getD 1 [])))
    ∧ (ep ∈ q → (∀ r ∈ phases, ep.2 < r.1) →
        ep ∈ config_error_report phases q
        ∧ (∀ d ∈ (run_phases phases q).1, ep ∉ d)
        ∧ ep ∈ (run_phases phases q).2) := by
  constructor
  · intro h1 h2
    have hnr : inRange r1.1 r1.2 ep.2 = false := by
      simp only [inRange, Bool.and_eq_false_iff, decide_eq_false_iff_not, Nat.not_le]
      exact Or.inr (by omega)
    refine ⟨?_, List.mem_filter.mpr ⟨h1, by simp [hnr]⟩, ?_⟩
    · intro hmem
      have := (List.mem_filter.mp hmem).2
      rw [hnr] at this
      cases this
    · intro hin
      have hleft : ep ∈ (pass_split r1.1 r1.2 q).2 :=
        List.mem_filter.mpr ⟨h1, by simp [hnr]⟩
      have : (run_phases (r1 :: r2 :: rest) q).1.getD 1 []
          = (pass_split r2.1 r2.2 (pass_split r1.1 r1.2 q).2).1 := by
        rw [run_phases, run_phases]
        rfl
      rw [this]
      exact List.mem_filter.mpr ⟨hleft, hin⟩
  · intro h1 hb
    obtain ⟨hd, hq⟩ := below_all_not_delivered phases q ep h1 hb
    refine ⟨?_, hd, hq⟩
    refine List.mem_filter.mpr ⟨h1, ?_⟩
    rw [List.all_eq_true]
    intro r hr
    exact decide_eq_true (hb r hr)

/-- C3 witness: with ranges `[0,4]` and `[5,9]` configured, an event of
priority 5 is skipped by the first phase, kept in its leftover queue,
and delivered by the second; with only `[1,4]` configured, an event of
priority 0 is reported as a configuration error and delivered by no
phase. -/
theorem priority_range_fate_witness :
    (((42, 5) : Nat × Nat) ∈ (pass_split 0 4 [((42, 5) : Nat × Nat)]).2
      ∧ ((42, 5) : Nat × Nat) ∈ ((run_phases [(0, 4), (5, 9)] [((42, 5) : Nat × Nat)]).1.getD 1 []))
    ∧ (((7, 0) : Nat × Nat) ∈ config_error_report [(1, 4)] [((7, 0) : Nat × Nat)]
      ∧ ((7, 0) : Nat × Nat) ∈ (run_phases [(1, 4)] [((7, 0) : Nat × Nat)]).2) := by
  have hA := (priority_range_fate (0, 4) (5, 9) [] [] [((42, 5) : Nat × Nat)] (42, 5)).1
    (by decide) (by decide)
  have hB := (priority_range_fate (0, 4) (5, 9) [] [(1, 4)] [((7, 0) : Nat × Nat)] (7, 0)).2
    (by decide) (by decide)
  exact ⟨⟨hA.2.1, hA.2.2 (by decide)⟩, hB.1, hB.2.2⟩

/-- An API provider over an API surface of type `Api`, from the
APIProvider contract implemented by `LuaAPIProvider` and `RhaiAPI` in
the sources: a name, the `attach_api` hook mutating the shared API
surface, and an optional documentation fragment. -/
structure Provider (Api : Type) where
  pname : String
  attach : Api → Except String Api
  doc_fragment : Option String

/-- Modelled from the spec: `attach_all` invokes every registered
provider's attach hook in registration order, threading the shared API
surface through; the first failure aborts immediately. Returns the
trace of invoked provider names together with the result. -/
def attach_all (Api : Type) (ps : List (Provider Api)) (api : Api) :
    List String × Except String Api :=
  match ps with
  | [] => ([], Except.ok api)
  | p :: rest =>
    match p.attach api with
    | Except.error e => ([p.pname], Except.error e)
    | Except.ok api2 =>
      let t := attach_all Api rest api2
      (p.pname :: t.1, t.2)

/-- Lifecycle states of a `ScriptContext`, from the specified state
machine. -/
inductive ContextState where
  | Uninitialized : ContextState
  | Ready : ContextState
  | Failed : ContextState
  | TornDown : ContextState
deriving DecidableEq, Repr

/-- Modelled from the spec: host startup first builds the whole API
surface via `attach_all`; only when every provider succeeded are the
script contexts created and the scripts brought to `Ready`. An attach
failure is fatal to startup: the host comes up with no context at
all. -/
def host_startup (Api : Type) (ps : List (Provider Api)) (api : Api)
    (scripts : List Script) :
    Except String (Api × List (Script × ContextState)) :=
  match (attach_all Api ps api).2 with
  | Except.error e => Except.error e
  | Except.ok api2 =>
    Except.ok (api2, scripts.map (fun s => (s, ContextState.Ready)))

/-- C6: when every provider before `p` succeeds and `p`'s attach fails,
`attach_all` invokes exactly the providers up to and including `p` in
registration order — the providers after `p` are never invoked — the
first failure is the result, and host startup aborts with that fatal
error: no `ScriptContext` list exists and no script reaches `Ready`. -/
theorem attach_all_fatal (Api : Type) (pre : List (Provider Api))
    (p : Provider Api) (post : List (Provider Api)) (api : Api)
    (scripts : List Script)
    (h1 : ∀ q ∈ pre, ∀ a, ∃ a2, q.attach a = Except.ok a2)
    (h2 : ∀ a, ∃ msg, p.attach a = Except.error msg) :
    (attach_all Api pre api).1 = pre.map Provider.pname
    ∧ (attach_all Api (pre ++ p :: post) api).1 = pre.map Provider.pname ++ [p.pname]
    ∧ (∃ msg, (attach_all Api (pre ++ p :: post) api).2 = Except.error msg
        ∧ host_startup Api (pre ++ p :: post) api scripts = Except.error msg)
    ∧ (∀ res, host_startup Api (pre ++ p :: post) api scripts ≠ Except.ok res) := by
  induction pre generalizing api with
  | nil =>
    obtain ⟨msg, hmsg⟩ := h2 api
    refine ⟨rfl, ?_, ⟨msg, ?_, ?_⟩, ?_⟩
    · simp [attach_all, hmsg]
    · simp [attach_all, hmsg]
    · simp [host_startup, attach_all, hmsg]
    · intro res
      simp [host_startup, attach_all, hmsg]
  | cons q pre ih =>
    obtain ⟨a2, ha2⟩ := h1 q (List.mem_cons_self q pre) api
    obtain ⟨ihtr, ihtr2, ⟨msg, hmsg1, hmsg2⟩, ihno⟩ :=
      ih a2 (fun r hr a => h1 r (List.mem_cons_of_mem q hr) a)
    refine ⟨?_, ?_, ⟨msg, ?_, ?_⟩, ?_⟩
    · simp [attach_all, ha2, ihtr]
    · simp [attach_all, ha2, ihtr2]
    · simpa [attach_all, ha2] using hmsg1
    · rw [host_startup] at hmsg2 ⊢
      simp only [List.cons_append, attach_all, ha2]
      simpa using hmsg2
    · intro res
      rw [host_startup] at ihno ⊢
      simp only [List.cons_append, attach_all, ha2]
      simpa using ihno res

/-- C6 witness: one succeeding provider registered before one whose
attach always fails — the trace stops at the failing provider and
startup is the fatal error. -/
theorem attach_all_fatal_witness :
    (attach_all Nat [⟨"ok1", fun a => Except.ok a, none⟩,
        ⟨"bad", fun _ => Except.error "broken api surface", none⟩] 0).1
      = ["ok1", "bad"]
    ∧ host_startup Nat [⟨"ok1", fun a => Except.ok a, none⟩,
        ⟨"bad", fun _ => Except.error "broken api surface", none⟩] 0
        [Script.new "a" 0 0]
      = Except.error "broken api surface" := by
  have h := attach_all_fatal Nat [⟨"ok1", fun a => Except.ok a, none⟩]
    ⟨"bad", fun _ => Except.error "broken api surface", none⟩ [] 0
    [Script.new "a" 0 0]
    (by intro q hq a
        simp only [List.mem_singleton] at hq
        subst hq
        exact ⟨a, rfl⟩)
    (fun a => ⟨"broken api surface", rfl⟩)
  obtain ⟨-, htr, ⟨msg, hmsg1, hmsg2⟩, -⟩ := h
  simp only [List.singleton_append, List.map_cons, List.map_nil] at htr hmsg1 hmsg2
  have h1b : Except.error "broken api surface" = (Except.error msg : Except String Nat) := by
    rw [← hmsg1]
    rfl
  injection h1b with h1c
  rw [← h1c] at hmsg2
  exact ⟨by simpa using htr, hmsg2⟩

/-- Script-host state: the mapping from `ScriptId` to the live
execution context of that script, exclusively owned by the Script
Host. -/
structure HostState (C : Type) where
  contexts : List (Nat × C)

/-- Modelled from the spec: `sync_contexts` scans all ScriptCollections
for additions and removals since the last call — for each script
without a context it creates one (instantiating the language runtime
via `mkCtx`), and for each context whose script is gone it runs
teardown and discards the context. Returns the new state together with
the number of context creations and the number of teardowns
performed. -/
def sync_contexts (C : Type) (mkCtx : Script → C) (colls : List ScriptCollection)
    (st : HostState C) : HostState C × Nat × Nat :=
  let current := colls.flatMap ScriptCollection.scripts
  let ids := current.map Script.id
  let kept := st.contexts.filter (fun kc => ids.contains kc.1)
  let removed := st.contexts.filter (fun kc => !(ids.contains kc.1))
  let added := current.filter (fun s => !(st.contexts.any (fun kc => kc.1 == s.id)))
  ({ contexts := kept ++ added.map (fun s => (s.id, mkCtx s)) },
   added.length, removed.length)

/-- A state whose contexts cover exactly the attached scripts is a
fixed point of `sync_contexts`, with zero creations and teardowns. -/
theorem sync_contexts_fixed (C : Type) (mkCtx : Script → C)
    (colls : List ScriptCollection) (st1 : HostState C)
    (h1 : ∀ kc ∈ st1.contexts,
      ((colls.flatMap ScriptCollection.scripts).map Script.id).contains kc.1 = true)
    (h2 : ∀ s ∈ colls.flatMap ScriptCollection.scripts,
      st1.contexts.any (fun kc => kc.1 == s.id) = true) :
    sync_contexts C mkCtx colls st1 = (st1, 0, 0) := by
  have hkept : st1.contexts.filter
      (fun kc => ((colls.flatMap ScriptCollection.scripts).map Script.id).contains kc.1)
        = st1.contexts :=
    List.filter_eq_self.mpr h1
  have hrem : st1.contexts.filter
      (fun kc => !(((colls.flatMap ScriptCollection.scripts).map Script.id).contains kc.1))
        = [] := by
    apply List.filter_eq_nil_iff.mpr
    intro kc hkc
    rw [h1 kc hkc]
    decide
  have hadd : (colls.flatMap ScriptCollection.scripts).filter
      (fun s => !(st1.contexts.any (fun kc => kc.1 == s.id))) = [] := by
    apply List.filter_eq_nil_iff.mpr
    intro s hs
    rw [h2 s hs]
    decide
  simp only [sync_contexts, hkept, hrem, hadd]
  simp

/-- C7: `sync_contexts` is idempotent with respect to the context
lifecycle — a second call with no intervening attach or detach performs
zero additional context creations and zero teardowns, and leaves the
host state unchanged. -/
theorem sync_contexts_idempotent (C : Type) (mkCtx : Script → C)
    (colls : List ScriptCollection) (st : HostState C) :
    sync_contexts C mkCtx colls (sync_contexts C mkCtx colls st).1
      = ((sync_contexts C mkCtx colls st).1, 0, 0) := by
  apply sync_contexts_fixed
  · intro kc hkc
    simp only [sync_contexts, List.mem_append] at hkc
    rcases hkc with hk | hk
    · exact (List.mem_filter.mp hk).2
    · simp only [List.mem_map] at hk
      obtain ⟨s, hs, hkc2⟩ := hk
      have hsc : s ∈ colls.flatMap ScriptCollection.scripts := (List.mem_filter.mp hs).1
      subst hkc2
      simp only [List.contains_iff_exists_mem_beq]
      exact ⟨s.id, List.mem_map.mpr ⟨s, hsc, rfl⟩, by simp⟩
  · intro s hs
    rw [List.any_eq_true]
    by_cases hc : st.contexts.any (fun kc => kc.1 == s.id) = true
    · rw [List.any_eq_true] at hc
      obtain ⟨kc, hkc, hb⟩ := hc
      refine ⟨kc, ?_, hb⟩
      simp only [sync_contexts, List.mem_append]
      left
      refine List.mem_filter.mpr ⟨hkc, ?_⟩
      have : kc.1 = s.id := by simpa using hb
      simp only [List.contains_iff_exists_mem_beq]
      exact ⟨s.id, List.mem_map.mpr ⟨s, hs, rfl⟩, by simp [this]⟩
    · refine ⟨(s.id, mkCtx s), ?_, by simp⟩
      simp only [sync_contexts, List.mem_append]
      right
      apply List.mem_map.mpr
      refine ⟨s, ?_, rfl⟩
      apply List.mem_filter.mpr
      refine ⟨hs, ?_⟩
      simp only [Bool.not_eq_true] at hc
      simp [hc]

/-- Outcome of `App::gen_documentation` (lib.rs lines 38-51): either the
environment flag is unset and the call is a no-op, or the call emits
the collected artifact and terminates the process via
`process::exit(0)`, or one of the two `expect` calls aborts with a
Rust panic message. -/
inductive GenDocOutcome where
  | noop : GenDocOutcome
  | exited (artifact : List String) : GenDocOutcome
  | fatal (msg : String) : GenDocOutcome
deriving DecidableEq, Repr

/-- Modelled from the spec: `APIProviders::gen_all` collects every
registered provider's documentation fragment into one artifact and
emits it through the I/O collaborator `emit`, whose failure is the only
failure of the operation. -/
def gen_all (Api : Type) (emit : List String → Except String Unit)
    (ps : List (Provider Api)) : Except String (List String) :=
  let art := ps.filterMap Provider.doc_fragment
  match emit art with
  | Except.ok _ => Except.ok art
  | Except.error e => Except.error e

/-- Embedding of `GenDocumentation::gen_documentation`
(lib.rs lines 38-51): when the `GEN_SCRIPT_DOC` environment variable is
set (`envSet`), remove the `APIProviders` resource from the world — a
missing resource hits
`.expect("No APIProviders resource found ...")` — run `gen_all` — a
failure hits `.expect("Could not generate documentation")` — then print
and `process::exit(0)`. When the variable is unset the function
returns `self` untouched. -/
def gen_documentation (Api : Type) (envSet : Bool)
    (providersRes : Option (List (Provider Api)))
    (emit : List String → Except String Unit) : GenDocOutcome :=
  if envSet then
    match providersRes with
    | none => GenDocOutcome.fatal
        "No APIProviders resource found for the given script host. Did you forget to register the host?"
    | some ps =>
      match gen_all Api emit ps with
      | Except.error _ => GenDocOutcome.fatal "Could not generate documentation"
      | Except.ok art => GenDocOutcome.exited art
  else GenDocOutcome.noop

/-- C8: documentation generation is a one-shot offline mode — with the
`GEN_SCRIPT_DOC` flag unset, `gen_documentation` changes nothing
(a no-op for every resource state and emitter); with the flag set and
the host registered, it collects every registered provider's
documentation fragment, in registration order, into one emitted
artifact and then terminates the process. -/
theorem gen_documentation_one_shot (Api : Type)
    (pr : Option (List (Provider Api))) (ps : List (Provider Api))
    (emit : List String → Except String Unit)
    (hemit : emit (ps.filterMap Provider.doc_fragment) = Except.ok ()) :
    gen_documentation Api false pr emit = GenDocOutcome.noop
    ∧ gen_documentation Api true (some ps) emit
        = GenDocOutcome.exited (ps.filterMap Provider.doc_fragment) := by
  refine ⟨rfl, ?_⟩
  simp [gen_documentation, gen_all, hemit]

/-- C8 witness: two providers, one with a fragment and one without, and
an emitter that succeeds — the artifact is the collected fragments and
the unset flag is a no-op. -/
theorem gen_documentation_one_shot_witness :
    gen_documentation Nat false (some [⟨"p1", fun a => Except.ok a, some "frag1"⟩])
        (fun _ => Except.ok ()) = GenDocOutcome.noop
    ∧ gen_documentation Nat true
        (some [⟨"p1", fun a => Except.ok a, some "frag1"⟩,
               ⟨"p2", fun a => Except.ok a, none⟩])
        (fun _ => Except.ok ())
      = GenDocOutcome.exited ["frag1"] := by
  have h := gen_documentation_one_shot Nat
    (some [⟨"p1", fun a => Except.ok a, some "frag1"⟩])
    [⟨"p1", fun a => Except.ok a, some "frag1"⟩, ⟨"p2", fun a => Except.ok a, none⟩]
    (fun _ => Except.ok ()) rfl
  exact ⟨h.1, h.2⟩

/-- C10: with `GEN_SCRIPT_DOC` set but no `APIProviders` resource
registered for the host, `gen_documentation` aborts with the
`expect` panic message — it neither returns an error value nor emits a
`ScriptErrorEvent`; the same holds when `gen_all` itself fails. -/
theorem gen_documentation_missing_host_fatal (Api : Type)
    (ps : List (Provider Api)) (emit : List String → Except String Unit)
    (e : String)
    (hemit : emit (ps.filterMap Provider.doc_fragment) = Except.error e) :
    gen_documentation Api true none emit
      = GenDocOutcome.fatal
          "No APIProviders resource found for the given script host. Did you forget to register the host?"
    ∧ gen_documentation Api true (some ps) emit
        = GenDocOutcome.fatal "Could not generate documentation" := by
  refine ⟨rfl, ?_⟩
  simp [gen_documentation, gen_all, hemit]

/-- C10 witness: a failing emitter and a missing resource both abort
with the respective panic message. -/
theorem gen_documentation_missing_host_fatal_witness :
    gen_documentation Nat true none (fun _ => Except.error "disk full")
      = GenDocOutcome.fatal
          "No APIProviders resource found for the given script host. Did you forget to register the host?"
    ∧ gen_documentation Nat true (some [⟨"p1", fun a => Except.ok a, some "frag1"⟩])
        (fun _ => Except.error "disk full")
      = GenDocOutcome.fatal "Could not generate documentation" :=
  gen_documentation_missing_host_fatal Nat
    [⟨"p1", fun a => Except.ok a, some "frag1"⟩]
    (fun _ => Except.error "disk full") "disk full" rfl

/-- Interpreter-visible state of the Lua binding in the sources: the
globals table, mapping global names to the integer values stored there
(the world pointer is exposed as the integer global `"world"`,
console_integration.rs lines 24 and 40-43). -/
structure LuaInterp where
  globals : List (String × Nat)
deriving DecidableEq, Repr

/-- Store a value under a global name, replacing any previous value. -/
def setGlobal (g : List (String × Nat)) (k : String) (v : Nat) :
    List (String × Nat) :=
  match g with
  | [] => [(k, v)]
  | kv :: rest => if kv.1 = k then (k, v) :: rest else kv :: setGlobal rest k v

/-- Read a global name. -/
def getGlobal (g : List (String × Nat)) (k : String) : Option Nat :=
  match g with
  | [] => none
  | kv :: rest => if kv.1 = k then some kv.2 else getGlobal rest k

/-- Embedding of the body of the `print_to_console` callback installed
by `LuaAPIProvider::attach_api` (console_integration.rs line 42):
`let world_data: usize = ctx.globals().get("world")` — the callback
reconstitutes the world pointer from the interpreter global. -/
def print_to_console_world (i : LuaInterp) : Option Nat :=
  getGlobal i.globals "world"

/-- Modelled from the spec design notes (the host-side invocation code
is not among the sources; §9 records the source pattern as "casting a
mutable reference to an integer, storing it as a global, later
reconstituting a mutable reference from that integer inside a
callback"): before each hook invocation the host stores the world
pointer, cast to an integer, in the interpreter global `"world"`; the
call then runs, and nothing removes the global when the call
returns. -/
def invoke_with_world (i : LuaInterp) (worldPtr : Nat) : LuaInterp :=
  { globals := setGlobal i.globals "world" worldPtr }

theorem getGlobal_setGlobal (g : List (String × Nat)) (k : String) (v : Nat) :
    getGlobal (setGlobal g k v) k = some v := by
  induction g with
  | nil => simp [setGlobal, getGlobal]
  | cons kv rest ih =>
    by_cases hk : kv.1 = k
    · simp [setGlobal, getGlobal, hk]
    · simp [setGlobal, getGlobal, hk, ih]

/-- C9 counterexample: the claim "no copy of the world-state handle
usable after the call survives in interpreter state" is false on the
source pattern — starting from an interpreter with empty globals, after
one hook invocation with world pointer 42 the callback-visible global
`"world"` still holds 42, whereas before the invocation it held
nothing. -/
theorem world_handle_retained_counterexample :
    print_to_console_world (invoke_with_world ⟨[]⟩ 42) = some 42
    ∧ print_to_console_world (invoke_with_world ⟨[]⟩ 42) ≠ none
    ∧ print_to_console_world ⟨[]⟩ = none := by
  refine ⟨rfl, ?_, rfl⟩
  intro h
  cases h

/-- C9 amended: the world-state handle is retained in the interpreter
globals past the call — after any hook invocation the global `"world"`
holds exactly the pointer of that (most recent) call, for every prior
interpreter state; its validity outside a call rests solely on the
scheduler's exclusivity discipline, not on the handle being removed. -/
theorem world_handle_overwritten_per_call (i : LuaInterp) (ptr : Nat) :
    print_to_console_world (invoke_with_world i ptr) = some ptr := by
  rw [print_to_console_world, invoke_with_world]
  exact getGlobal_setGlobal i.globals "world" ptr
